import Mathlib

/-!
Shallow embedding of the V-Player Pro video player application
(src/types.ts, src/components/VideoPlayer.tsx, src/components/VideoLibrary.tsx,
src/App.tsx) and proofs about its control/state logic.

React `useState` state is modelled as explicit record fields; each event
handler becomes a pure state-transition function.  JavaScript numbers that
hold the playback quantities (speed, progress, times) are modelled as ℚ —
every numeric literal the code manipulates (0.5, 1, 1.25, 1.5, 2, the 0–100
percentage) is exactly representable in binary floating point and the code
only compares them for strict equality, so ℚ is faithful on the values that
occur.  Browser effects (the media element, `Math.random` ids,
`URL.createObjectURL`) are modelled as explicit state fields or input
streams supplied as parameters.
-/

namespace VPlayer

/-- `src/types.ts`: `enum AspectRatio` with its five fixed modes. -/
inductive AspectRatio where
  | FIT
  | STRETCH
  | CROP
  | SIXTEEN_NINE
  | FOUR_THREE
deriving DecidableEq

/-- `src/types.ts`: `interface PlayerSettings`. -/
structure PlayerSettings where
  playbackSpeed : ℚ
  aspectRatio : AspectRatio
  isLocked : Bool
deriving DecidableEq

/-- `src/types.ts`: `interface VideoFile`.  `size` is the human-readable
string the library computes; `lastModified` is a millisecond timestamp. -/
structure VideoFile where
  id : String
  name : String
  size : String
  url : String
  type : String
  lastModified : ℤ
  folderName : String
  relativePath : String
deriving DecidableEq

/-- A browser `File` object as consumed by `handleFolderSelect`
(`src/components/VideoLibrary.tsx`): exactly the fields the code reads. -/
structure InputFile where
  name : String
  size : ℕ
  type : String
  lastModified : ℤ
  webkitRelativePath : String
deriving DecidableEq

/-- JavaScript `Array.prototype.indexOf`: index of the first element equal to
`x`, or `-1` when `x` does not occur.  Used by `changeAspectRatio` and
`changeSpeed` in `src/components/VideoPlayer.tsx`. -/
def jsIndexOf {α : Type} [DecidableEq α] : List α → α → ℤ
  | [], _ => -1
  | a :: l, x =>
      if a = x then 0
      else
        let r := jsIndexOf l x
        if r = -1 then -1 else r + 1

theorem jsIndexOf_of_not_mem {α : Type} [DecidableEq α] {l : List α} {x : α}
    (h : x ∉ l) : jsIndexOf l x = -1 := by
  induction l with
  | nil => rfl
  | cons a l ih =>
      simp only [List.mem_cons, not_or] at h
      have hax : ¬ a = x := fun hax => h.1 hax.symm
      simp [jsIndexOf, hax, ih h.2]

/-! ## Player view: `src/components/VideoPlayer.tsx`

The `useState` hooks of `VideoPlayer` plus the observable state of the
underlying `<video>` element (`videoRef.current`).  `mediaDuration = none`
models the element's duration being `NaN` (no metadata yet); both `NaN` and
`0` are falsy in the `if (videoRef.current && videoRef.current.duration)`
guard of `handleSeek`. -/
structure PlayerState where
  isPlaying : Bool
  progress : ℚ
  currentTime : ℚ
  duration : ℚ
  volume : ℚ
  brightness : ℚ
  showControls : Bool
  error : Option String
  settings : PlayerSettings
  mediaSrc : String
  mediaTime : ℚ
  mediaDuration : Option ℚ
  mediaRate : ℚ
deriving DecidableEq

/-- The `useState` initializer of the `settings` hook:
`{ playbackSpeed: 1, aspectRatio: AspectRatio.FIT, isLocked: false }`. -/
def defaultSettings : PlayerSettings :=
  { playbackSpeed := 1
    aspectRatio := AspectRatio.FIT
    isLocked := false }

/-- The state of a freshly mounted `VideoPlayer`: every `useState`
initializer, plus a pristine media element. -/
def initialPlayerState : PlayerState :=
  { isPlaying := false
    progress := 0
    currentTime := 0
    duration := 0
    volume := 1
    brightness := 100
    showControls := true
    error := none
    settings := defaultSettings
    mediaSrc := ""
    mediaTime := 0
    mediaDuration := none
    mediaRate := 1 }

/-- `handleSeek`: rejected while locked; otherwise, when the element exists
and its duration is truthy, converts the 0–100 percentage into an absolute
time, writes it to the element, and stores the new progress. -/
def handleSeek (newProgress : ℚ) (s : PlayerState) : PlayerState :=
  if s.settings.isLocked then s
  else
    match s.mediaDuration with
    | none => s
    | some d =>
        if d = 0 then s
        else
          let newTime := newProgress / 100 * d
          { s with mediaTime := newTime, progress := newProgress }

/-- The `order` array local to `changeAspectRatio`. -/
def aspectOrder : List AspectRatio :=
  [AspectRatio.FIT, AspectRatio.STRETCH, AspectRatio.CROP,
   AspectRatio.SIXTEEN_NINE, AspectRatio.FOUR_THREE]

/-- The index computation and lookup inside `changeAspectRatio`:
`order[(order.indexOf(current) + 1) % order.length]`.  The JavaScript `%` on
the non-negative left operand is `Int.emod`; the lookup default is never
used because the computed index is always below the list length. -/
def nextRatio (r : AspectRatio) : AspectRatio :=
  let currentIndex := jsIndexOf aspectOrder r
  let nextIndex := (currentIndex + 1).emod (aspectOrder.length : ℤ)
  aspectOrder.getD nextIndex.toNat AspectRatio.FIT

/-- `changeAspectRatio`: advance the aspect ratio through `aspectOrder`.
Note the source has no lock guard here. -/
def changeAspectRatio (s : PlayerState) : PlayerState :=
  { s with settings := { s.settings with aspectRatio := nextRatio s.settings.aspectRatio } }

/-- The `speeds` array local to `changeSpeed`. -/
def speeds : List ℚ := [0.5, 1, 1.25, 1.5, 2]

/-- The index computation and lookup inside `changeSpeed`:
`speeds[(speeds.indexOf(current) + 1) % speeds.length]`. -/
def nextSpeed (sp : ℚ) : ℚ :=
  let currentIndex := jsIndexOf speeds sp
  let nextIndex := (currentIndex + 1).emod (speeds.length : ℤ)
  speeds.getD nextIndex.toNat 0

/-- `changeSpeed`: advance the playback speed through `speeds` and write the
new speed to the element's `playbackRate`.  No lock guard in the source. -/
def changeSpeed (s : PlayerState) : PlayerState :=
  let newSpeed := nextSpeed s.settings.playbackSpeed
  { s with settings := { s.settings with playbackSpeed := newSpeed }
           mediaRate := newSpeed }

/-- `toggleLock`: flip the lock flag and show the controls. -/
def toggleLock (s : PlayerState) : PlayerState :=
  { s with settings := { s.settings with isLocked := !s.settings.isLocked }
           showControls := true }

/-- The video-load `useEffect` body, run on every change of the bound
`video` prop: `setError(null)`, pause, assign `video.url`, `load()` (which
resets the element clock to zero), then attempt `play()`.  The promise
outcome is the `autoplayOk` parameter: fulfilled ⇒ `setIsPlaying(true)` and
`resetControlsTimer()`; rejected ⇒ `setIsPlaying(false)` and no error. -/
def bindVideo (video : VideoFile) (autoplayOk : Bool) (s : PlayerState) : PlayerState :=
  if autoplayOk then
    { s with error := none, mediaSrc := video.url, mediaTime := 0,
             isPlaying := true, showControls := true }
  else
    { s with error := none, mediaSrc := video.url, mediaTime := 0,
             isPlaying := false }

/-- `handleVideoError` (the element's `onError`): set the terminal error
message and stop playing. -/
def handleVideoError (s : PlayerState) : PlayerState :=
  { s with error := some "এই ভিডিওটি প্লে করা যাচ্ছে না। ফরম্যাটটি ব্রাউজার সাপোর্ট করে না।"
           isPlaying := false }

/-- The element's `onEnded` handler: `setIsPlaying(false)`. -/
def onEnded (s : PlayerState) : PlayerState :=
  { s with isPlaying := false }

/-- A user activation of the aspect-ratio control.  In the JSX the button is
rendered only under `!settings.isLocked && ...`, so while locked the control
does not exist and the activation reaches `changeAspectRatio` only when
unlocked. -/
def clickAspectRatioButton (s : PlayerState) : PlayerState :=
  if s.settings.isLocked then s else changeAspectRatio s

/-- A user activation of the speed control; same visibility gate as
`clickAspectRatioButton`. -/
def clickSpeedButton (s : PlayerState) : PlayerState :=
  if s.settings.isLocked then s else changeSpeed s

/-! ## Library view: `src/components/VideoLibrary.tsx` -/

/-- JavaScript `String.prototype.startsWith`, implemented over the
character lists of the strings so that concrete instances evaluate. -/
def jsStartsWith (s p : String) : Bool :=
  p.data.isPrefixOf s.data

/-- Splitting a character list at every occurrence of `sep`, keeping empty
segments — the behaviour of JavaScript `split` with a one-character
separator. -/
def splitCharAux (sep : Char) : List Char → List Char → List (List Char)
  | [], acc => [acc.reverse]
  | c :: rest, acc =>
      if c = sep then acc.reverse :: splitCharAux sep rest []
      else splitCharAux sep rest (c :: acc)

/-- JavaScript `String.prototype.split` with a one-character separator. -/
def jsSplitChar (sep : Char) (s : String) : List String :=
  (splitCharAux sep s.data []).map (fun cs => String.mk cs)

/-- The filter step of `handleFolderSelect`:
`filesArray.filter(file => file.type.startsWith('video/'))`. -/
def videoFilesOf (files : List InputFile) : List InputFile :=
  files.filter (fun file => jsStartsWith file.type "video/")

/-- The folder-name extraction inside `handleFolderSelect`: second-to-last
segment of `webkitRelativePath` (split at every slash), defaulting to the
fixed fallback label when there is no parent segment. -/
def folderNameOfPath (rel : String) : String :=
  let pathParts := jsSplitChar '/' rel
  if pathParts.length > 1 then pathParts.getD (pathParts.length - 2) ""
  else "Internal Storage"

/-- `(file.size / (1024 * 1024)).toFixed(2) + ' MB'`, computed exactly over
ℕ in hundredths of a megabyte with round-to-nearest (the double arithmetic
of the source agrees on all inputs whose quotient is not within double
rounding error of a half-hundredth boundary). -/
def formatSizeMB (bytes : ℕ) : String :=
  let hundredths := (bytes * 100 + 524288) / 1048576
  toString (hundredths / 100) ++ "." ++
    (if hundredths % 100 < 10 then "0" else "") ++ toString (hundredths % 100) ++ " MB"

/-- The per-file mapping of `handleFolderSelect`.  `genId` stands for the
`Math.random().toString(36).substr(2, 9)` draw and `genUrl` for
`URL.createObjectURL(file)`; both are effects, supplied as inputs. -/
def mkEntry (genId genUrl : String) (file : InputFile) : VideoFile :=
  { id := genId
    name := file.name
    size := formatSizeMB file.size
    url := genUrl
    type := file.type
    lastModified := file.lastModified
    folderName := folderNameOfPath file.webkitRelativePath
    relativePath := file.webkitRelativePath }

/-- `handleFolderSelect`: filter the batch to video-typed files, then map
each retained file to a `VideoFile` entry, drawing the i-th id and object
URL from the effect streams. -/
def handleFolderSelect (ids urls : ℕ → String) (files : List InputFile) : List VideoFile :=
  (videoFilesOf files).mapIdx (fun i file => mkEntry (ids i) (urls i) file)

/-- The group built by the `folders` memo for one key: the entries pushed
into `group[folderName]` are exactly the videos with that folder name, in
list order. -/
def folderGroup (videos : List VideoFile) (folderName : String) : List VideoFile :=
  videos.filter (fun video => video.folderName == folderName)

/-- Key accumulation of the `folders` memo: `forEach` inserts a key the
first time its folder name is seen (JavaScript object keys keep insertion
order). -/
def folderKeysAux : List VideoFile → List String → List String
  | [], acc => acc
  | video :: rest, acc =>
      folderKeysAux rest
        (if video.folderName ∈ acc then acc else acc ++ [video.folderName])

/-- `Object.keys(folders)` for the grouping of `videos`. -/
def folderKeys (videos : List VideoFile) : List String :=
  folderKeysAux videos []

/-- JavaScript `Array.prototype.findIndex` specialised to the id lookup of
the video-item `onClick`: `videos.findIndex(v => v.id === video.id)`. -/
def jsFindIndexId (targetId : String) : List VideoFile → ℤ
  | [] => -1
  | v :: rest =>
      if v.id = targetId then 0
      else
        let r := jsFindIndexId targetId rest
        if r = -1 then -1 else r + 1

/-! ## Root controller: `src/App.tsx` -/

/-- The two `useState` hooks of `App`. -/
structure AppState where
  videos : List VideoFile
  currentVideoIndex : Option ℤ
deriving DecidableEq

/-- Both hooks at their initializers: empty list, no current video. -/
def initialAppState : AppState :=
  { videos := [], currentVideoIndex := none }

/-- `handleAddVideos`: append the new batch. -/
def handleAddVideos (newVideos : List VideoFile) (s : AppState) : AppState :=
  { s with videos := s.videos ++ newVideos }

/-- `handlePlayVideo`. -/
def handlePlayVideo (index : ℤ) (s : AppState) : AppState :=
  { s with currentVideoIndex := some index }

/-- `handleBackToLibrary`. -/
def handleBackToLibrary (s : AppState) : AppState :=
  { s with currentVideoIndex := none }

/-- `handleNextVideo`: advance only when an index is set and it is below
`videos.length - 1` (JavaScript integer arithmetic, hence ℤ). -/
def handleNextVideo (s : AppState) : AppState :=
  match s.currentVideoIndex with
  | none => s
  | some i =>
      if i < (s.videos.length : ℤ) - 1 then { s with currentVideoIndex := some (i + 1) }
      else s

/-- `handlePrevVideo`: step back only when an index is set and positive. -/
def handlePrevVideo (s : AppState) : AppState :=
  match s.currentVideoIndex with
  | none => s
  | some i =>
      if i > 0 then { s with currentVideoIndex := some (i - 1) }
      else s

/-- The video-item `onClick` of the library view composed with the
`onPlayVideo` callback: look the clicked entry's id up in the global list
and store the found position. -/
def libraryClickPlay (s : AppState) (video : VideoFile) : AppState :=
  handlePlayVideo (jsFindIndexId video.id s.videos) s

/-- The current index, when set, addresses a real list position. -/
def InBounds (s : AppState) : Prop :=
  ∀ i, s.currentVideoIndex = some i → 0 ≤ i ∧ i < (s.videos.length : ℤ)

/-- Root-controller states reachable through the operations the UI can
trigger: folder selection feeding `handleAddVideos`, a click on a listed
video feeding `handlePlayVideo` with the id-lookup result, and the
back/next/previous callbacks. -/
inductive Reachable : AppState → Prop where
  | init : Reachable initialAppState
  | add (s : AppState) (files : List InputFile) (ids urls : ℕ → String) :
      Reachable s → Reachable (handleAddVideos (handleFolderSelect ids urls files) s)
  | play (s : AppState) (video : VideoFile) :
      Reachable s → video ∈ s.videos → Reachable (libraryClickPlay s video)
  | back (s : AppState) : Reachable s → Reachable (handleBackToLibrary s)
  | next (s : AppState) : Reachable s → Reachable (handleNextVideo s)
  | prev (s : AppState) : Reachable s → Reachable (handlePrevVideo s)

/-- Reachability under the additional assumption that the random id draws
never produce a duplicate: each `add` step keeps the ids of the whole list
pairwise distinct.  The code itself does not enforce this. -/
inductive ReachableUniqueIds : AppState → Prop where
  | init : ReachableUniqueIds initialAppState
  | add (s : AppState) (files : List InputFile) (ids urls : ℕ → String) :
      ReachableUniqueIds s →
      ((s.videos ++ handleFolderSelect ids urls files).map (fun v => v.id)).Nodup →
      ReachableUniqueIds (handleAddVideos (handleFolderSelect ids urls files) s)
  | play (s : AppState) (video : VideoFile) :
      ReachableUniqueIds s → video ∈ s.videos →
      ReachableUniqueIds (libraryClickPlay s video)
  | back (s : AppState) : ReachableUniqueIds s → ReachableUniqueIds (handleBackToLibrary s)
  | next (s : AppState) : ReachableUniqueIds s → ReachableUniqueIds (handleNextVideo s)
  | prev (s : AppState) : ReachableUniqueIds s → ReachableUniqueIds (handlePrevVideo s)

/-- Player states reachable from a fresh mount through the modelled
handlers.  The handlers not modelled here (`togglePlay`, the volume and
brightness inputs, `handleProgress`, `onLoadedMetadata`) never write the
`settings` hook in the source. -/
inductive PlayerReachable : PlayerState → Prop where
  | init : PlayerReachable initialPlayerState
  | seek (s : PlayerState) (p : ℚ) : PlayerReachable s → PlayerReachable (handleSeek p s)
  | aspect (s : PlayerState) : PlayerReachable s → PlayerReachable (changeAspectRatio s)
  | speed (s : PlayerState) : PlayerReachable s → PlayerReachable (changeSpeed s)
  | lock (s : PlayerState) : PlayerReachable s → PlayerReachable (toggleLock s)
  | bind (s : PlayerState) (video : VideoFile) (autoplayOk : Bool) :
      PlayerReachable s → PlayerReachable (bindVideo video autoplayOk s)
  | mediaError (s : PlayerState) : PlayerReachable s → PlayerReachable (handleVideoError s)
  | ended (s : PlayerState) : PlayerReachable s → PlayerReachable (onEnded s)

/-! ## Concrete sample data used by witnesses and counterexamples -/

def exVideo : VideoFile :=
  { id := "vid1", name := "clip.mp4", size := "5.00 MB", url := "blob:1",
    type := "video/mp4", lastModified := 1700000000000,
    folderName := "Movies", relativePath := "Movies/clip.mp4" }

def exVideo2 : VideoFile :=
  { id := "vid2", name := "other.mp4", size := "6.00 MB", url := "blob:2",
    type := "video/mp4", lastModified := 1700000000000,
    folderName := "Movies", relativePath := "Movies/other.mp4" }

def exLockedState : PlayerState :=
  { initialPlayerState with settings := { defaultSettings with isLocked := true } }

def exSpeed2State : PlayerState :=
  { initialPlayerState with
      settings := { playbackSpeed := 2, aspectRatio := AspectRatio.CROP, isLocked := false } }

def cexFileA : InputFile :=
  { name := "a.mp4", size := 5000000, type := "video/mp4",
    lastModified := 1700000000000, webkitRelativePath := "Movies/a.mp4" }

def cexFileB : InputFile :=
  { name := "b.mp4", size := 6000000, type := "video/mp4",
    lastModified := 1700000000000, webkitRelativePath := "Movies/b.mp4" }

/-- Two draws of `Math.random().toString(36).substr(2, 9)` that happen to
coincide; nothing in the code rules this out. -/
def cexIds : ℕ → String := fun _ => "dup000idx"

def cexUrls : ℕ → String := fun n => "blob:" ++ toString n

def cexAppState : AppState :=
  handleAddVideos (handleFolderSelect cexIds cexUrls [cexFileA, cexFileB]) initialAppState

def exAppState1 : AppState :=
  { videos := [exVideo], currentVideoIndex := some 0 }

def exAppState2 : AppState :=
  { videos := [exVideo, exVideo2], currentVideoIndex := none }

/-! ## Helper lemmas -/

theorem nextSpeed_half : nextSpeed 0.5 = 1 := by
  norm_num [nextSpeed, jsIndexOf, speeds, Int.toNat_ofNat, Int.toNat]

theorem nextSpeed_one : nextSpeed 1 = 1.25 := by
  norm_num [nextSpeed, jsIndexOf, speeds, Int.toNat_ofNat, Int.toNat]

theorem nextSpeed_oneTwoFive : nextSpeed 1.25 = 1.5 := by
  norm_num [nextSpeed, jsIndexOf, speeds, Int.toNat_ofNat, Int.toNat]

theorem nextSpeed_oneFive : nextSpeed 1.5 = 2 := by
  norm_num [nextSpeed, jsIndexOf, speeds, Int.toNat_ofNat, Int.toNat]

theorem nextSpeed_two : nextSpeed 2 = 0.5 := by
  norm_num [nextSpeed, jsIndexOf, speeds, Int.toNat_ofNat, Int.toNat]

/-- Five speed steps return to any starting speed drawn from the list. -/
theorem nextSpeed_five_cycle (sp : ℚ) (hsp : sp ∈ speeds) :
    nextSpeed (nextSpeed (nextSpeed (nextSpeed (nextSpeed sp)))) = sp := by
  simp only [speeds, List.mem_cons, List.not_mem_nil, or_false] at hsp
  rcases hsp with h | h | h | h | h <;> subst h
  · rw [nextSpeed_half, nextSpeed_one, nextSpeed_oneTwoFive, nextSpeed_oneFive, nextSpeed_two]
  · rw [nextSpeed_one, nextSpeed_oneTwoFive, nextSpeed_oneFive, nextSpeed_two, nextSpeed_half]
  · rw [nextSpeed_oneTwoFive, nextSpeed_oneFive, nextSpeed_two, nextSpeed_half, nextSpeed_one]
  · rw [nextSpeed_oneFive, nextSpeed_two, nextSpeed_half, nextSpeed_one, nextSpeed_oneTwoFive]
  · rw [nextSpeed_two, nextSpeed_half, nextSpeed_one, nextSpeed_oneTwoFive, nextSpeed_oneFive]

/-- Five aspect-ratio steps return to any starting mode. -/
theorem nextRatio_five_cycle (r : AspectRatio) :
    nextRatio (nextRatio (nextRatio (nextRatio (nextRatio r)))) = r := by
  cases r <;> rfl

theorem mem_aspectOrder (r : AspectRatio) : r ∈ aspectOrder := by
  cases r <;> decide

/-- A speed step always lands inside the list, even from a foreign speed
(JavaScript `indexOf` returns `-1` there, so the step lands on `speeds[0]`). -/
theorem nextSpeed_mem (sp : ℚ) : nextSpeed sp ∈ speeds := by
  by_cases h : sp ∈ speeds
  · simp only [speeds, List.mem_cons, List.not_mem_nil, or_false] at h
    rcases h with h | h | h | h | h <;> subst h
    · rw [nextSpeed_half]; simp [speeds]
    · rw [nextSpeed_one]; simp [speeds]
    · rw [nextSpeed_oneTwoFive]; simp [speeds]
    · rw [nextSpeed_oneFive]; simp [speeds]
    · rw [nextSpeed_two]; simp [speeds]
  · have hix := jsIndexOf_of_not_mem h
    rw [nextSpeed, hix]
    norm_num [speeds, Int.toNat]

theorem changeAspectRatio_ratio (s : PlayerState) :
    (changeAspectRatio s).settings.aspectRatio = nextRatio s.settings.aspectRatio := rfl

theorem changeAspectRatio_speed (s : PlayerState) :
    (changeAspectRatio s).settings.playbackSpeed = s.settings.playbackSpeed := rfl

theorem changeSpeed_speed (s : PlayerState) :
    (changeSpeed s).settings.playbackSpeed = nextSpeed s.settings.playbackSpeed := rfl

theorem changeSpeed_ratio (s : PlayerState) :
    (changeSpeed s).settings.aspectRatio = s.settings.aspectRatio := rfl

theorem handleSeek_settings (p : ℚ) (s : PlayerState) :
    (handleSeek p s).settings = s.settings := by
  rw [handleSeek]
  split
  · rfl
  · split
    · rfl
    · split <;> rfl

theorem bindVideo_settings (video : VideoFile) (autoplayOk : Bool) (s : PlayerState) :
    (bindVideo video autoplayOk s).settings = s.settings := by
  cases autoplayOk <;> rfl

theorem toggleLock_speed (s : PlayerState) :
    (toggleLock s).settings.playbackSpeed = s.settings.playbackSpeed := rfl

/-- First index with the given id: non-negative and below the length as soon
as some listed video carries the id. -/
theorem jsFindIndexId_bounds {videos : List VideoFile} {targetId : String}
    (h : ∃ v ∈ videos, v.id = targetId) :
    0 ≤ jsFindIndexId targetId videos ∧ jsFindIndexId targetId videos < (videos.length : ℤ) := by
  induction videos with
  | nil => simp at h
  | cons w rest ih =>
      rw [jsFindIndexId]
      by_cases hw : w.id = targetId
      · simp only [if_pos hw, List.length_cons]
        omega
      · simp only [if_neg hw]
        obtain ⟨v, hv, hvid⟩ := h
        rcases List.mem_cons.mp hv with rfl | hv2
        · exact absurd hvid hw
        · obtain ⟨h0, h1⟩ := ih ⟨v, hv2, hvid⟩
          have hne : jsFindIndexId targetId rest ≠ -1 := by omega
          simp only [if_neg hne, List.length_cons]
          omega

/-- With pairwise-distinct ids, looking up the id of the entry at position
`i` finds exactly `i`. -/
theorem jsFindIndexId_get {videos : List VideoFile} (i : ℕ) (h : i < videos.length)
    (hu : (videos.map (fun v => v.id)).Nodup) :
    jsFindIndexId (videos.get ⟨i, h⟩).id videos = (i : ℤ) := by
  induction videos generalizing i with
  | nil => simp at h
  | cons w rest ih =>
      simp only [List.map_cons, List.nodup_cons] at hu
      cases i with
      | zero => simp [jsFindIndexId]
      | succ j =>
          have hj : j < rest.length := by simpa using h
          have hget : (w :: rest).get ⟨j + 1, h⟩ = rest.get ⟨j, hj⟩ := rfl
          rw [hget, jsFindIndexId]
          have hwne : ¬ w.id = (rest.get ⟨j, hj⟩).id := by
            intro he
            exact hu.1 (he ▸ List.mem_map_of_mem (fun v => v.id) (rest.get_mem j hj))
          rw [if_neg hwne]
          have hrec := ih j hj hu.2
          have hnn : jsFindIndexId (rest.get ⟨j, hj⟩).id rest ≠ -1 := by omega
          simp only [hrec, if_neg hnn]
          push_cast
          ring

/-- Membership in the accumulated key list. -/
theorem folderKeysAux_mem (x : String) (videos : List VideoFile) :
    ∀ acc : List String,
      (x ∈ folderKeysAux videos acc ↔ x ∈ acc ∨ x ∈ videos.map (fun v => v.folderName)) := by
  induction videos with
  | nil => intro acc; simp [folderKeysAux]
  | cons v rest ih =>
      intro acc
      rw [folderKeysAux, ih]
      by_cases h : v.folderName ∈ acc
      · rw [if_pos h]
        simp only [List.map_cons, List.mem_cons]
        constructor
        · rintro (hx | hx)
          · exact Or.inl hx
          · exact Or.inr (Or.inr hx)
        · rintro (hx | hx | hx)
          · exact Or.inl hx
          · exact Or.inl (by rwa [hx])
          · exact Or.inr hx
      · rw [if_neg h]
        simp only [List.mem_append, List.mem_singleton, List.map_cons, List.mem_cons]
        tauto

theorem mem_folderKeys {x : String} {videos : List VideoFile} :
    x ∈ folderKeys videos ↔ x ∈ videos.map (fun v => v.folderName) := by
  rw [folderKeys, folderKeysAux_mem]
  simp

theorem mem_folderGroup {videos : List VideoFile} {v : VideoFile} {k : String} :
    v ∈ folderGroup videos k ↔ v ∈ videos ∧ v.folderName = k := by
  simp [folderGroup, List.mem_filter]

theorem handleNextVideo_videos (s : AppState) : (handleNextVideo s).videos = s.videos := by
  unfold handleNextVideo
  cases s.currentVideoIndex with
  | none => rfl
  | some i =>
      show (if i < (s.videos.length : ℤ) - 1
            then { s with currentVideoIndex := some (i + 1) } else s).videos = s.videos
      split <;> rfl

theorem handlePrevVideo_videos (s : AppState) : (handlePrevVideo s).videos = s.videos := by
  unfold handlePrevVideo
  cases s.currentVideoIndex with
  | none => rfl
  | some i =>
      show (if i > 0
            then { s with currentVideoIndex := some (i - 1) } else s).videos = s.videos
      split <;> rfl

theorem handleNextVideo_inBounds {s : AppState} (hs : InBounds s) :
    InBounds (handleNextVideo s) := by
  unfold handleNextVideo
  cases hc : s.currentVideoIndex with
  | none => exact hs
  | some i =>
      show InBounds (if i < (s.videos.length : ℤ) - 1
            then { s with currentVideoIndex := some (i + 1) } else s)
      by_cases hlt : i < (s.videos.length : ℤ) - 1
      · rw [if_pos hlt]
        intro j hj
        have hij : i + 1 = j := Option.some.inj hj
        obtain ⟨h0, h1⟩ := hs i hc
        show 0 ≤ j ∧ j < (s.videos.length : ℤ)
        omega
      · rw [if_neg hlt]
        exact hs

theorem handlePrevVideo_inBounds {s : AppState} (hs : InBounds s) :
    InBounds (handlePrevVideo s) := by
  unfold handlePrevVideo
  cases hc : s.currentVideoIndex with
  | none => exact hs
  | some i =>
      show InBounds (if i > 0
            then { s with currentVideoIndex := some (i - 1) } else s)
      by_cases hgt : i > 0
      · rw [if_pos hgt]
        intro j hj
        have hij : i - 1 = j := Option.some.inj hj
        obtain ⟨h0, h1⟩ := hs i hc
        show 0 ≤ j ∧ j < (s.videos.length : ℤ)
        omega
      · rw [if_neg hgt]
        exact hs

/-! ## Claim theorems -/

/-- Claim C1 is false as frozen: in a locked player state, invoking the
aspect-ratio change operation changes the aspect ratio and invoking the
speed change operation changes the playback speed — `changeAspectRatio` and
`changeSpeed` carry no lock guard in the source (only `handleSeek` does);
while locked those controls are merely not rendered. -/
theorem c1_counterexample :
    exLockedState.settings.isLocked = true ∧
    (changeAspectRatio exLockedState).settings.aspectRatio ≠
      exLockedState.settings.aspectRatio ∧
    (changeSpeed exLockedState).settings.playbackSpeed ≠
      exLockedState.settings.playbackSpeed := by
  refine ⟨rfl, by decide, ?_⟩
  rw [changeSpeed_speed]
  show nextSpeed 1 ≠ 1
  rw [nextSpeed_one]
  norm_num

/-- Claim C1 (amended): while locked, the seek handler is a programmatic
no-op, and the aspect-ratio and speed controls are hidden (not rendered), so
a user activation of either control leaves the state unchanged; the raw
handlers themselves are not lock-guarded. -/
theorem c1_locked_amended (s : PlayerState) (p : ℚ)
    (h : s.settings.isLocked = true) :
    handleSeek p s = s ∧ clickAspectRatioButton s = s ∧ clickSpeedButton s = s := by
  refine ⟨?_, ?_, ?_⟩ <;>
    simp [handleSeek, clickAspectRatioButton, clickSpeedButton, h]

theorem c1_locked_amended_witness :
    exLockedState.settings.isLocked = true ∧
    (handleSeek 50 exLockedState = exLockedState ∧
     clickAspectRatioButton exLockedState = exLockedState ∧
     clickSpeedButton exLockedState = exLockedState) :=
  ⟨rfl, c1_locked_amended exLockedState 50 rfl⟩

/-- Claim C2 is false as frozen: binding a new video entry does not reset
the player settings — the video-load effect never writes the `settings`
hook, so a prior non-default settings state survives the bind. -/
theorem c2_counterexample :
    (bindVideo exVideo true exSpeed2State).settings ≠ defaultSettings := by
  rw [bindVideo_settings]
  exact fun h => absurd (congrArg PlayerSettings.aspectRatio h) (by decide)

/-- Claim C2 (amended): the player settings are at their default values
(speed 1, aspect ratio Fit, unlocked) on a fresh mount of the player view,
and binding a video entry to an already-mounted player leaves the settings
unchanged for every prior settings state. -/
theorem c2_settings_amended (s : PlayerState) (video : VideoFile) (autoplayOk : Bool) :
    (bindVideo video autoplayOk s).settings = s.settings ∧
    initialPlayerState.settings = defaultSettings :=
  ⟨bindVideo_settings video autoplayOk s, rfl⟩

/-- Claim C3: binding a video entry clears any prior error, restarts the
media clock at zero, and a fulfilled auto-play yields the playing state
while a rejected auto-play yields the paused state — still with no error. -/
theorem c3_bind_clears_error (s : PlayerState) (video : VideoFile) (autoplayOk : Bool) :
    (bindVideo video autoplayOk s).error = none ∧
    (bindVideo video autoplayOk s).mediaTime = 0 ∧
    (bindVideo video true s).isPlaying = true ∧
    (bindVideo video false s).isPlaying = false ∧
    (bindVideo video false s).error = none := by
  cases autoplayOk <;> exact ⟨rfl, rfl, rfl, rfl, rfl⟩

/-- Claim C4: from any of the five modes, five aspect-ratio steps return to
the starting mode; from any speed in the fixed list, five speed steps return
to the starting speed. -/
theorem c4_cycle_five (s : PlayerState) (hsp : s.settings.playbackSpeed ∈ speeds) :
    (changeAspectRatio (changeAspectRatio (changeAspectRatio (changeAspectRatio
        (changeAspectRatio s))))).settings.aspectRatio = s.settings.aspectRatio ∧
    (changeSpeed (changeSpeed (changeSpeed (changeSpeed
        (changeSpeed s))))).settings.playbackSpeed = s.settings.playbackSpeed := by
  constructor
  · simp only [changeAspectRatio_ratio]
    exact nextRatio_five_cycle _
  · simp only [changeSpeed_speed]
    exact nextSpeed_five_cycle _ hsp

theorem c4_cycle_five_witness :
    initialPlayerState.settings.playbackSpeed ∈ speeds ∧
    ((changeAspectRatio (changeAspectRatio (changeAspectRatio (changeAspectRatio
        (changeAspectRatio initialPlayerState))))).settings.aspectRatio =
          initialPlayerState.settings.aspectRatio ∧
     (changeSpeed (changeSpeed (changeSpeed (changeSpeed
        (changeSpeed initialPlayerState))))).settings.playbackSpeed =
          initialPlayerState.settings.playbackSpeed) :=
  ⟨by simp [initialPlayerState, defaultSettings, speeds],
   c4_cycle_five initialPlayerState (by simp [initialPlayerState, defaultSettings, speeds])⟩

/-- Claim C5: folder selection retains exactly the files whose MIME type
begins with the "video/" label, and the admitted entries are the retained
files mapped through the entry constructor. -/
theorem c5_video_filter (files : List InputFile) (ids urls : ℕ → String) :
    (∀ f, f ∈ videoFilesOf files ↔ f ∈ files ∧ jsStartsWith f.type "video/" = true) ∧
    handleFolderSelect ids urls files =
      (videoFilesOf files).mapIdx (fun i file => mkEntry (ids i) (urls i) file) := by
  constructor
  · intro f
    simp [videoFilesOf, List.mem_filter]
  · rfl

/-- Claim C6: grouping by folder name is an exact partition — a listed entry
belongs to a group exactly when the group's key is its folder name, and it
appears in exactly one of the listed groups. -/
theorem c6_group_partition (videos : List VideoFile) (v : VideoFile) (hv : v ∈ videos) :
    (∀ k, v ∈ folderGroup videos k ↔ k = v.folderName) ∧
    ∃! k, k ∈ folderKeys videos ∧ v ∈ folderGroup videos k := by
  have hmem : ∀ k, v ∈ folderGroup videos k ↔ k = v.folderName := by
    intro k
    rw [mem_folderGroup]
    exact ⟨fun hk => hk.2.symm, fun hk => ⟨hv, hk.symm⟩⟩
  refine ⟨hmem, v.folderName,
    ⟨mem_folderKeys.mpr (List.mem_map_of_mem _ hv), (hmem _).mpr rfl⟩, ?_⟩
  exact fun k hk => (hmem k).mp hk.2

theorem c6_group_partition_witness :
    exVideo ∈ [exVideo] ∧
    ((∀ k, exVideo ∈ folderGroup [exVideo] k ↔ k = exVideo.folderName) ∧
     ∃! k, k ∈ folderKeys [exVideo] ∧ exVideo ∈ folderGroup [exVideo] k) :=
  ⟨by simp, c6_group_partition [exVideo] exVideo (by simp)⟩

/-- Claim C7: with pairwise-distinct entry ids, clicking the entry that
occupies global position `i` makes the root controller's current index
exactly `i`. -/
theorem c7_click_plays_global_index (s : AppState) (i : ℕ) (h : i < s.videos.length)
    (hu : (s.videos.map (fun v => v.id)).Nodup) :
    (libraryClickPlay s (s.videos.get ⟨i, h⟩)).currentVideoIndex = some (i : ℤ) := by
  show some (jsFindIndexId (s.videos.get ⟨i, h⟩).id s.videos) = some (i : ℤ)
  rw [jsFindIndexId_get i h hu]

theorem c7_click_plays_global_index_witness :
    (1 < exAppState2.videos.length ∧ (exAppState2.videos.map (fun v => v.id)).Nodup) ∧
    (libraryClickPlay exAppState2 (exAppState2.videos.get ⟨1, by decide⟩)).currentVideoIndex =
      some (1 : ℤ) :=
  ⟨⟨by decide, by decide⟩,
   c7_click_plays_global_index exAppState2 1 (by decide) (by decide)⟩

/-- Claim C8: next is a no-op at the last index, previous is a no-op at
index zero, and from any in-bounds state both navigations keep the current
index in bounds. -/
theorem c8_boundary_noop :
    (∀ s : AppState, s.currentVideoIndex = some ((s.videos.length : ℤ) - 1) →
        handleNextVideo s = s) ∧
    (∀ s : AppState, s.currentVideoIndex = some 0 → handlePrevVideo s = s) ∧
    (∀ s : AppState, InBounds s →
        InBounds (handleNextVideo s) ∧ InBounds (handlePrevVideo s)) := by
  refine ⟨?_, ?_, fun s hs => ⟨handleNextVideo_inBounds hs, handlePrevVideo_inBounds hs⟩⟩
  · intro s h
    unfold handleNextVideo
    rw [h]
    simp
  · intro s h
    unfold handlePrevVideo
    rw [h]
    simp

theorem c8_boundary_noop_witness :
    (exAppState1.currentVideoIndex = some ((exAppState1.videos.length : ℤ) - 1) ∧
     handleNextVideo exAppState1 = exAppState1) ∧
    (exAppState1.currentVideoIndex = some 0 ∧
     handlePrevVideo exAppState1 = exAppState1) ∧
    (InBounds (handleNextVideo exAppState1) ∧ InBounds (handlePrevVideo exAppState1)) :=
  ⟨⟨by decide, c8_boundary_noop.1 exAppState1 (by decide)⟩,
   ⟨rfl, c8_boundary_noop.2.1 exAppState1 rfl⟩,
   c8_boundary_noop.2.2 exAppState1
     (fun i hi => by
        rw [show exAppState1.currentVideoIndex = some 0 from rfl, Option.some.injEq] at hi
        subst hi
        exact ⟨by decide, by decide⟩)⟩

/-- Claim C9 is false as frozen: id uniqueness is not an invariant of the
reachable states — the ids are random draws and nothing stops two draws from
coinciding, so a folder selection can admit two entries with the same id. -/
theorem c9_counterexample :
    Reachable cexAppState ∧
    ¬ ((cexAppState.videos.map (fun v => v.id)).Nodup) := by
  constructor
  · exact Reachable.add initialAppState [cexFileA, cexFileB] cexIds cexUrls Reachable.init
  · have hids : cexAppState.videos.map (fun v => v.id) = ["dup000idx", "dup000idx"] := by
      decide
    rw [hids]
    decide

/-- Claim C9 (amended): in every reachable root-controller state the current
index, if set, is within bounds; id uniqueness additionally holds in every
state reachable under the assumption that the random id draws never
collide — the code itself does not enforce that assumption. -/
theorem c9_invariants_amended :
    (∀ s : AppState, Reachable s → InBounds s) ∧
    (∀ s : AppState, ReachableUniqueIds s → ((s.videos.map (fun v => v.id)).Nodup)) := by
  constructor
  · intro s h
    induction h with
    | init => intro i hi; cases hi
    | add s files ids urls hs ih =>
        intro i hi
        obtain ⟨h0, h1⟩ := ih i hi
        refine ⟨h0, ?_⟩
        show (i : ℤ) < ((s.videos ++ handleFolderSelect ids urls files).length : ℤ)
        rw [List.length_append]
        omega
    | play s video hs hmem ih =>
        intro i hi
        have hb : 0 ≤ jsFindIndexId video.id s.videos ∧
            jsFindIndexId video.id s.videos < (s.videos.length : ℤ) :=
          jsFindIndexId_bounds ⟨video, hmem, rfl⟩
        have hidx : jsFindIndexId video.id s.videos = i := Option.some.inj hi
        show 0 ≤ i ∧ i < (s.videos.length : ℤ)
        omega
    | back s hs ih => intro i hi; cases hi
    | next s hs ih => exact handleNextVideo_inBounds ih
    | prev s hs ih => exact handlePrevVideo_inBounds ih
  · intro s h
    induction h with
    | init => simp [initialAppState]
    | add s files ids urls hs hnd ih => exact hnd
    | play s video hs hmem ih => exact ih
    | back s hs ih => exact ih
    | next s hs ih => rw [handleNextVideo_videos]; exact ih
    | prev s hs ih => rw [handlePrevVideo_videos]; exact ih

theorem c9_invariants_amended_witness :
    InBounds initialAppState ∧
    ((initialAppState.videos.map (fun v => v.id)).Nodup) :=
  ⟨c9_invariants_amended.1 initialAppState Reachable.init,
   c9_invariants_amended.2 initialAppState ReachableUniqueIds.init⟩

/-- Claim C10: in every reachable player state the playback speed is one of
the five listed speeds and the aspect ratio is one of the five fixed modes;
in particular each cycle step's list lookup stays inside the ordered list. -/
theorem c10_settings_invariant (s : PlayerState) (h : PlayerReachable s) :
    s.settings.playbackSpeed ∈ speeds ∧ s.settings.aspectRatio ∈ aspectOrder := by
  induction h with
  | init => exact ⟨by simp [initialPlayerState, defaultSettings, speeds], mem_aspectOrder _⟩
  | seek s p hs ih => rw [handleSeek_settings]; exact ih
  | aspect s hs ih => exact ⟨by rw [changeAspectRatio_speed]; exact ih.1, mem_aspectOrder _⟩
  | speed s hs ih => exact ⟨by rw [changeSpeed_speed]; exact nextSpeed_mem _, mem_aspectOrder _⟩
  | lock s hs ih => exact ⟨by rw [toggleLock_speed]; exact ih.1, mem_aspectOrder _⟩
  | bind s video autoplayOk hs ih => rw [bindVideo_settings]; exact ih
  | mediaError s hs ih => exact ⟨ih.1, mem_aspectOrder _⟩
  | ended s hs ih => exact ih

theorem c10_settings_invariant_witness :
    initialPlayerState.settings.playbackSpeed ∈ speeds ∧
    initialPlayerState.settings.aspectRatio ∈ aspectOrder :=
  c10_settings_invariant initialPlayerState PlayerReachable.init

end VPlayer
